import Mathlib

/-!
Verification development for the cypherpunk-cli repository.

The Rust sources are shallowly embedded:
* byte/character sequences (`String` / `Vec<u8>`) become `List Char`;
* `HashMap<String, Remailer>` becomes an association list with unique keys;
* `failure::Fallible<T>` becomes `Except (List Char) T`;
* the PGP back-end (an external collaborator) is a function parameter;
* the thread-local RNG is a parameter: `shuffle` models `SliceRandom::shuffle`
  and `draw` models the index drawn by `SliceRandom::choose`.
-/

/-- Byte/character strings (`String` in the Rust sources). -/
abbrev Str := List Char

/-- Message payloads (`Vec<u8>` in the Rust sources); the program only ever
converts them with `String::from_utf8`, so text is an adequate carrier. -/
abbrev Bytes := List Char

/-- `failure::Fallible<T>`: either a value or an error message. -/
abbrev Fallible (α : Type) := Except Str α

/-- `src/remailer.rs` — `struct Remailer`.  `latency : Duration` is kept in
whole seconds (the only constructor used is `Duration::from_secs`); `keys :
Vec<TPK>` keeps opaque key material; `uptime : f32` is a `Float` here. -/
structure Remailer where
  name : Str
  email_address : Str
  options : List Str
  latency : Nat
  keys : List Str
  uptime : Float

/-- `Default::default()` for `Remailer`. -/
def Remailer.default : Remailer :=
  { name := [], email_address := [], options := [], latency := 0, keys := [], uptime := 0 }

/-! ### Latency parsing (`src/remailer.rs`, `Remailer::set_latency_from`)

The Rust code matches the anchored regex
`^((?P<hour>\d+):)?(?P<minute>[0-5]?\d):(?P<second>[0-5]\d)$` and sums
`hour*3600 + minute*60 + second`; a non-matching string leaves `seconds = 0`.
A string matches that regex iff splitting it on every colon yields either
`[minute, second]` or `[hour, minute, second]` pieces with `hour` a non-empty
digit string, `minute` one digit or two digits whose first is `0`-`5`, and
`second` exactly two digits whose first is `0`-`5` (the hour group cannot
contain a colon, so the colon-split decomposition is exact).  Overflow of the
Rust `u64` parse is not modelled (`Nat` is unbounded). -/

/-- Is `c` an ASCII digit? -/
def isDigitCh (c : Char) : Bool := '0' ≤ c && c ≤ '9'

/-- Numeric value of a digit string (as Rust `str::parse` on digits). -/
def natVal (s : Str) : Nat := s.foldl (fun a c => 10 * a + (c.toNat - 48)) 0

/-- The `hour` group `\d+`: one or more digits. -/
def isHourTok (s : Str) : Bool := !s.isEmpty && s.all isDigitCh

/-- The `minute` group `[0-5]?\d`. -/
def isMinuteTok (s : Str) : Bool :=
  match s with
  | [d] => isDigitCh d
  | [d1, d2] => ('0' ≤ d1 && d1 ≤ '5') && isDigitCh d2
  | _ => false

/-- The `second` group `[0-5]\d`. -/
def isSecondTok (s : Str) : Bool :=
  match s with
  | [d1, d2] => ('0' ≤ d1 && d1 ≤ '5') && isDigitCh d2
  | _ => false

/-- Split a string at every colon (exact decomposition used by the anchored
latency regex). -/
def splitColon : Str → List Str
  | [] => [[]]
  | c :: cs =>
    let r := splitColon cs
    if c = ':' then [] :: r
    else
      match r with
      | [] => [[c]]
      | x :: xs => (c :: x) :: xs

/-- Does the string match the latency grammar (optional hour component,
required minute and second components, minute and second below 60)? -/
def latencyGrammar (s : Str) : Bool :=
  match splitColon s with
  | [m, sec] => isMinuteTok m && isSecondTok sec
  | [h, m, sec] => isHourTok h && isMinuteTok m && isSecondTok sec
  | _ => false

/-- Seconds computed by `Remailer::set_latency_from`: the regex capture sums,
or `0` when the string does not match. -/
def parseLatencySeconds (s : Str) : Nat :=
  match splitColon s with
  | [m, sec] =>
    if isMinuteTok m && isSecondTok sec then 60 * natVal m + natVal sec else 0
  | [h, m, sec] =>
    if isHourTok h && isMinuteTok m && isSecondTok sec then
      3600 * natVal h + 60 * natVal m + natVal sec
    else 0
  | _ => 0

/-- `Remailer::set_latency_from` — always returns `Ok(())` (its only error
source, compiling a constant regex, cannot fail), setting
`latency := parseLatencySeconds s`. -/
def Remailer.set_latency_from (r : Remailer) (s : Str) : Fallible Remailer :=
  .ok { r with latency := parseLatencySeconds s }

/-- `Remailer::set_uptime`. -/
def Remailer.set_uptime (r : Remailer) (u : Float) : Remailer :=
  { r with uptime := u }

/-- `Remailer::set_options`. -/
def Remailer.set_options (r : Remailer) (o : List Str) : Remailer :=
  { r with options := o }

/-! ### The relay registry (`HashMap<String, Remailer>` in `get_stats`)

Modelled as an association list with unique keys: `regGet` is `HashMap::get`,
`regModify` is the in-place mutation through `get_mut`, and insertion (only
ever performed when the key is absent) appends. -/

/-- The registry of known remailers. -/
abbrev Registry := List (Str × Remailer)

/-- `HashMap::get` / `contains_key`. -/
def regGet : Registry → Str → Option Remailer
  | [], _ => none
  | (k, v) :: rest, n => if k = n then some v else regGet rest n

/-- In-place update of the entry for `n` (the effect of mutating through
`HashMap::get_mut`). -/
def regModify : Registry → Str → (Remailer → Remailer) → Registry
  | [], _, _ => []
  | (k, v) :: rest, n, f =>
    if k = n then (k, f v) :: rest else (k, v) :: regModify rest n f

/-- `HashMap::insert` for a key known to be absent. -/
def regInsert (reg : Registry) (n : Str) (r : Remailer) : Registry :=
  reg ++ [(n, r)]

/-- The key list (`HashMap::keys`), used for the wildcard candidate vector. -/
def regNames (reg : Registry) : List Str := reg.map Prod.fst

/-! ### Directory records (`get_stats` in `src/main.rs`)

The single multi-alternative regex of `get_stats` produces matches of three
shapes, dispatched by the `match` on `IMatch`; lines matching none of the
alternatives are ignored. -/

/-- One parsed directory-feed record. -/
inductive DirRecord where
  /-- `$remailer{"name"} = "<email> options...";` lines. -/
  | identity (name email : Str) (options : List Str)
  /-- `Last update: ...` lines (metadata only). -/
  | freshness (date : Str)
  /-- `name email <noise> latency uptime%` statistics lines. -/
  | stats (name email latency uptime : Str)

/-- One step of the `for_each` accumulation in `get_stats`, applying one
record to the registry.  `parseUptime` models `str::parse::<f32>()
.unwrap_or(0.0)` on the uptime token (an external float-parsing routine).
In the stats branches `set_latency_from` never errors, so the `.unwrap()`
in the source cannot panic; the unreachable error branch keeps the relay
unchanged. -/
def applyRecord (parseUptime : Str → Float) (reg : Registry) : DirRecord → Registry
  | .identity name email options =>
    match regGet reg name with
    | some _ => regModify reg name (fun r => r.set_options options)
    | none =>
      regInsert reg name
        { Remailer.default with name := name, email_address := email, options := options }
  | .freshness _ => reg
  | .stats name email latency uptime =>
    match regGet reg name with
    | some _ =>
      regModify reg name (fun r =>
        match r.set_latency_from latency with
        | .ok r2 => r2.set_uptime (parseUptime uptime)
        | .error _ => r)
    | none =>
      let r0 : Remailer :=
        { Remailer.default with
            name := name, email_address := email, uptime := parseUptime uptime }
      match r0.set_latency_from latency with
      | .ok r2 => regInsert reg name r2
      | .error _ => reg

/-! ### Onion encryption (`encrypt_message` in `src/main.rs`)

The fold runs over `chain.iter().rev()` with accumulator `Fallible<Vec<u8>>`.
Token resolution happens inside each fold step: `"*"` draws a random entry of
the shuffled key vector (`SliceRandom::choose`, which yields `None` exactly on
an empty slice); any other token is looked up by name.  The RNG is a
parameter: `draw k` is the index drawn by the `k`-th `choose` call of the
attempt (taken modulo the slice length), and `shuffle i` permutes the key
vector for attempt `i`.  The external `encrypt` closure becomes
`enc : Remailer → Bytes → Fallible Bytes`. -/

/-- The header block prepended at each step of `main.rs`'s fold:
`format!("\n::\nAnon-To: {}\n\n::\nEncrypted: PGP\n\n", remailer.get_email())`. -/
def cpHeaderMain (email : Str) : Str :=
  "\n::\nAnon-To: ".data ++ email ++ "\n\n::\nEncrypted: PGP\n\n".data

/-- `random_remailers.choose(&mut rng)` followed by the registry lookup
(`.ok_or(...)` twice) on a `"*"` token. -/
def chooseRemailer (remailers : Registry) (names : List Str) (d : Nat) : Fallible Remailer :=
  match names.get? (d % names.length) with
  | none => .error "can't choose randomly a remailer_id".data
  | some nm =>
    match regGet remailers nm with
    | none => .error "unknown remailer id ?!".data
    | some r => .ok r

/-- Resolution of one chain token (the `match remailer.as_str()` block). -/
def resolveToken (remailers : Registry) (names : List Str) (d : Nat) (tok : Str) :
    Fallible Remailer :=
  if tok = "*".data then chooseRemailer remailers names d
  else if (regGet remailers tok).isSome then
    match regGet remailers tok with
    | some r => .ok r
    | none => .error ("unknown remailer: ".data ++ tok)
  else .error ("The remailer named `".data ++ tok ++ "` is unknown!".data)

/-- One step of the per-attempt fold.  The state also carries the number of
RNG draws consumed so far (a `"*"` token consumes one draw even when the
accumulated input is already an error — resolution happens before `input?`). -/
def mainStep (remailers : Registry) (names : List Str) (draw : Nat → Nat)
    (enc : Remailer → Bytes → Fallible Bytes) :
    Fallible Bytes × Nat → Str → Fallible Bytes × Nat
  | (input, k), tok =>
    let draws := if tok = "*".data then 1 else 0
    match resolveToken remailers names (draw k) tok with
    | .error e => (.error e, k + draws)
    | .ok remailer =>
      match input with
      | .error e => (.error e, k + draws)
      | .ok m =>
        match enc remailer m with
        | .error e => (.error e, k + draws)
        | .ok ct => (.ok (cpHeaderMain remailer.email_address ++ ct), k + draws)

/-- One redundancy attempt (the body of the `for r_count` loop): shuffle the
key vector, then fold `chain.iter().rev()` starting from the plaintext. -/
def attemptRun (remailers : Registry) (chain : List Str)
    (shuffle : Nat → List Str → List Str) (draw : Nat → Nat → Nat)
    (enc : Remailer → Bytes → Fallible Bytes) (message : Bytes) (i : Nat) :
    Fallible Bytes :=
  let names := shuffle i (regNames remailers)
  (chain.reverse.foldl (mainStep remailers names (draw i) enc) (.ok message, 0)).1

/-- `*redundancy as u8`: reinterpretation of the signed byte as unsigned. -/
def asU8 (redundancy : Int) : Nat := (redundancy % 256).toNat

/-- `encrypt_message` of `src/main.rs` (the `mailto_link = false` path; the
`mailto_link = true` path applies `format_mailto`, modelled separately).  A
successful attempt pushes its envelope onto the collector; a failed attempt is
only logged.  `String::from_utf8` cannot fail in this model, so the function
always returns `Ok`. -/
def encrypt_message (remailers : Registry) (chain : List Str) (redundancy : Int)
    (message : Bytes) (shuffle : Nat → List Str → List Str)
    (draw : Nat → Nat → Nat) (enc : Remailer → Bytes → Fallible Bytes) :
    Fallible (List Bytes) :=
  .ok ((List.range (asU8 redundancy)).foldl
    (fun acc i =>
      match attemptRun remailers chain shuffle draw enc message i with
      | .ok env => acc ++ [env]
      | .error _ => acc)
    [])

/-- The list of per-attempt outcomes (attempt `i` depends only on its own
index, never on another attempt's result). -/
def attemptResults (remailers : Registry) (chain : List Str) (redundancy : Int)
    (message : Bytes) (shuffle : Nat → List Str → List Str)
    (draw : Nat → Nat → Nat) (enc : Remailer → Bytes → Fallible Bytes) :
    List (Fallible Bytes) :=
  (List.range (asU8 redundancy)).map (attemptRun remailers chain shuffle draw enc message)

/-- Keep the payloads of the successful outcomes, in order. -/
def collectOks : List (Fallible Bytes) → List Bytes
  | [] => []
  | .ok b :: rest => b :: collectOks rest
  | .error _ :: rest => collectOks rest

/-- Count the failed outcomes. -/
def countErrs : List (Fallible Bytes) → Nat
  | [] => 0
  | .ok _ :: rest => countErrs rest
  | .error _ :: rest => countErrs rest + 1

/-! ### The library core (`CypherpunkCore::encrypt_message` in `src/lib.rs`)

The core folds the chain in the order given (its callers are expected to have
reversed it already) and supports caller-supplied extra headers. -/

/-- `headers.join("\n")`. -/
def joinNL : List Str → Str
  | [] => []
  | [h] => h
  | h :: h2 :: t => h ++ '\n' :: joinNL (h2 :: t)

/-- The header block of `src/lib.rs`:
`format!("\n::\nAnon-To: {}\n{}\n\n::\nEncrypted: PGP\n\n", remailer, addheaders)`. -/
def coreHeader (remailer : Str) (headers : List Str) : Str :=
  "\n::\nAnon-To: ".data ++ remailer ++ '\n' :: joinNL headers
    ++ "\n\n::\nEncrypted: PGP\n\n".data

/-- One step of the core's fold: propagate an erroneous accumulator
(`input?`), otherwise encrypt for the single recipient and prepend the header
block. -/
def coreStep (enc : Str → Bytes → Fallible Bytes) (headers : List Str)
    (input : Fallible Bytes) (remailer : Str) : Fallible Bytes :=
  match input with
  | .error e => .error e
  | .ok m =>
    match enc remailer m with
    | .error e => .error e
    | .ok ct => .ok (coreHeader remailer headers ++ ct)

namespace CypherpunkCore

/-- `CypherpunkCore::encrypt_message` (`src/lib.rs`, lines 56-83). -/
def encrypt_message (enc : Str → Bytes → Fallible Bytes) (chain : List Str)
    (headers : List Str) (message : Bytes) : Fallible Bytes :=
  chain.foldl (coreStep enc headers) (.ok message)

end CypherpunkCore

/-! ### The success path of the onion fold, and layer peeling

`onionEncrypt` is the value computed by `main.rs`'s fold when every token
resolves and every encryption succeeds (`attemptRun_eq_onionEncrypt` below
ties it to `attemptRun`); the chain argument is the resolved relay emails in
the user-visible order, folded from its last element to its first. -/

/-- The envelope built over a resolved chain of relay emails by the
`chain.iter().rev().fold` of `src/main.rs` when nothing fails. -/
def onionEncrypt (encF : Str → Bytes → Bytes) (resolved : List Str) (msg : Bytes) :
    Bytes :=
  resolved.reverse.foldl (fun input email => cpHeaderMain email ++ encF email input) msg

/-- Parse one layer: recognise the `cpHeaderMain` block at the front of an
envelope and return the named address and the remaining ciphertext. -/
def parseLayerHeader (env : Bytes) : Option (Str × Bytes) :=
  let marker := "\n::\nAnon-To: ".data
  let trailer := "\n\n::\nEncrypted: PGP\n\n".data
  if env.take marker.length = marker then
    let rest := env.drop marker.length
    let addr := rest.takeWhile (fun c => c ≠ '\n')
    let rest2 := rest.drop addr.length
    if rest2.take trailer.length = trailer then
      some (addr, rest2.drop trailer.length)
    else none
  else none

/-- Hop-by-hop opening of an envelope in forward chain order: at every layer
the parsed header must name exactly the expected relay, whose decryption
exposes the next layer; the final residue is returned. -/
def peelLayers (decF : Str → Bytes → Bytes) : List Str → Bytes → Option Bytes
  | [], env => some env
  | e :: rest, env =>
    match parseLayerHeader env with
    | some (addr, ct) => if addr = e then peelLayers decF rest (decF e ct) else none
    | none => none

/-! ### Envelope formatting (`format_mailto` in `src/main.rs`)

`String::find` becomes `find_sub`; the two `expect` calls become `Option`
failures; `utf8_percent_encode(_, NON_ALPHANUMERIC)` percent-encodes every
UTF-8 byte outside ASCII `A-Z a-z 0-9` as an uppercase `%XX` escape. -/

/-- Is `pat` a prefix of the list? -/
def isPrefixOfC : Str → Str → Bool
  | [], _ => true
  | _ :: _, [] => false
  | p :: ps, x :: xs => p = x && isPrefixOfC ps xs

/-- `String::find`: index of the first occurrence of `pat`. -/
def find_sub (pat : Str) : Str → Option Nat
  | [] => if isPrefixOfC pat [] then some 0 else none
  | x :: xs =>
    if isPrefixOfC pat (x :: xs) then some 0
    else (find_sub pat xs).map (· + 1)

/-- UTF-8 encoding of one character. -/
def utf8Encode (c : Char) : List Nat :=
  let n := c.toNat
  if n < 128 then [n]
  else if n < 2048 then [192 + n / 64, 128 + n % 64]
  else if n < 65536 then [224 + n / 4096, 128 + (n / 64) % 64, 128 + n % 64]
  else [240 + n / 262144, 128 + (n / 4096) % 64, 128 + (n / 64) % 64, 128 + n % 64]

/-- Uppercase hexadecimal digit. -/
def hexUpper (n : Nat) : Char :=
  if n < 10 then Char.ofNat (48 + n) else Char.ofNat (55 + n)

/-- Is the byte an ASCII alphanumeric (the complement of
`percent_encoding::NON_ALPHANUMERIC`)? -/
def isAlnumByte (b : Nat) : Bool :=
  (65 ≤ b && b ≤ 90) || (97 ≤ b && b ≤ 122) || (48 ≤ b && b ≤ 57)

/-- Percent-encode one byte. -/
def percentEncodeByte (b : Nat) : Str :=
  if isAlnumByte b then [Char.ofNat b]
  else ['%', hexUpper (b / 16), hexUpper (b % 16)]

/-- `utf8_percent_encode(s, NON_ALPHANUMERIC).to_string()`. -/
def percentEncode (s : Str) : Str :=
  ((s.map utf8Encode).flatten.map percentEncodeByte).flatten

/-- `format_mailto` (`src/main.rs`, lines 384-396): find the first `": "`,
drop everything through it; the address runs to the next `"\n\n"`; drop one
further character; percent-encode the whole remainder as the body. -/
def format_mailto (message : Str) : Option Str :=
  match find_sub ": ".data message with
  | none => none
  | some i =>
    let m1 := message.drop (i + 2)
    match find_sub "\n\n".data m1 with
    | none => none
    | some j =>
      let email := m1.take j
      let m2 := (m1.drop j).drop 1
      some ("mailto:".data ++ email ++ "?body=".data ++ percentEncode m2)

/-- Modelled from the spec: EML-mode formatting is described in §4.5 of the
specification but no EML formatter exists under `src/`.  Following the spec's
words: locate the literal marker `"Anon-To: "`; everything between it and the
next line break is the recipient address; locate the first blank line
(`"\n\n"`) after that and treat everything after it as the body; emit the
minimal header block followed by a blank line and the raw body. -/
def format_eml (message : Str) : Option Str :=
  match find_sub "Anon-To: ".data message with
  | none => none
  | some i =>
    let m1 := message.drop (i + 9)
    let addr := m1.takeWhile (fun c => c ≠ '\n')
    match find_sub "\n\n".data (m1.drop addr.length) with
    | none => none
    | some j =>
      let body := (m1.drop addr.length).drop (j + 2)
      some ("MIME-Version: 1.0\nContent-Type: text/plain; charset=utf-8\nTo: ".data
        ++ addr ++ "\n\n".data ++ body)

/-! ### Concrete instances used by witnesses and counterexamples -/

/-- The example envelope of §8 of the specification. -/
def exampleEnvelope : Str :=
  "\n::\nAnon-To: a@b.com\n\n::\nEncrypted: PGP\n\nHello World".data

/-- A concrete relay. -/
def dizumR : Remailer :=
  { name := "dizum".data, email_address := "remailer@dizum.com".data,
    options := [], latency := 0, keys := [], uptime := 0 }

/-- A one-relay registry. -/
def regW : Registry := [("dizum".data, dizumR)]

/-- A concrete shuffle (the identity permutation). -/
def shufW : Nat → List Str → List Str := fun _ l => l

/-- A concrete RNG draw sequence. -/
def drawW : Nat → Nat → Nat := fun _ _ => 0

/-- A concrete always-succeeding PGP back-end for `attemptRun`. -/
def encW : Remailer → Bytes → Fallible Bytes := fun _ m => .ok ('#' :: m)

/-- The same back-end keyed by recipient string, for the library core. -/
def encS : Str → Bytes → Fallible Bytes := fun _ m => .ok ('#' :: m)

/-! ## Helper lemmas -/

theorem parseLatency_of_not_grammar (s : Str) (h : latencyGrammar s = false) :
    parseLatencySeconds s = 0 := by
  unfold parseLatencySeconds
  unfold latencyGrammar at h
  split <;> simp_all

theorem regGet_regModify_self (n : Str) (f : Remailer → Remailer) (r : Remailer) :
    ∀ reg : Registry, regGet reg n = some r → regGet (regModify reg n f) n = some (f r)
  | [], h => by simp [regGet] at h
  | (k, v) :: rest, h => by
    by_cases hk : k = n
    · subst hk
      simp [regGet] at h
      simp [regModify, regGet, h]
    · simp [regGet, hk] at h
      simpa [regModify, regGet, hk] using regGet_regModify_self n f r rest h

theorem regGet_regModify_ne (n m : Str) (f : Remailer → Remailer) (h : m ≠ n) :
    ∀ reg : Registry, regGet (regModify reg n f) m = regGet reg m
  | [] => by simp [regModify]
  | (k, v) :: rest => by
    by_cases hk : k = n
    · subst hk
      have hkm : ¬ (k = m) := fun hkm => h (hkm ▸ rfl)
      simp [regModify, regGet, hkm]
    · simp [regModify, hk, regGet]
      by_cases hkm : k = m
      · simp [hkm]
      · simp [hkm]
        exact regGet_regModify_ne n m f h rest

theorem collectOks_length_add_countErrs :
    ∀ L : List (Fallible Bytes), (collectOks L).length + countErrs L = L.length
  | [] => rfl
  | .ok b :: rest => by
    simp [collectOks, countErrs]
    have := collectOks_length_add_countErrs rest
    omega
  | .error e :: rest => by
    simp [collectOks, countErrs]
    have := collectOks_length_add_countErrs rest
    omega

theorem foldl_push_collectOks (f : Nat → Fallible Bytes) :
    ∀ (l : List Nat) (acc : List Bytes),
      l.foldl (fun acc i =>
        match f i with
        | .ok env => acc ++ [env]
        | .error _ => acc) acc
        = acc ++ collectOks (l.map f)
  | [], acc => by simp [collectOks]
  | x :: xs, acc => by
    cases hfx : f x with
    | ok env =>
      simp only [List.foldl_cons, List.map_cons, hfx, collectOks]
      rw [foldl_push_collectOks f xs (acc ++ [env])]
      simp
    | error e =>
      simp only [List.foldl_cons, List.map_cons, hfx, collectOks]
      exact foldl_push_collectOks f xs acc

theorem mainStep_error_state (remailers : Registry) (names : List Str)
    (drawF : Nat → Nat) (enc : Remailer → Bytes → Fallible Bytes)
    (e : Str) (k : Nat) (tok : Str) :
    ∃ e2 k2, mainStep remailers names drawF enc (.error e, k) tok = (.error e2, k2) := by
  unfold mainStep
  cases h : resolveToken remailers names (drawF k) tok <;> simp [h]

theorem foldl_mainStep_error (remailers : Registry) (names : List Str)
    (drawF : Nat → Nat) (enc : Remailer → Bytes → Fallible Bytes) :
    ∀ (l : List Str) (e : Str) (k : Nat),
      ∃ e2, (l.foldl (mainStep remailers names drawF enc) (.error e, k)).1
          = Except.error e2
  | [], e, k => ⟨e, rfl⟩
  | tok :: xs, e, k => by
    obtain ⟨e2, k2, hstep⟩ := mainStep_error_state remailers names drawF enc e k tok
    simp only [List.foldl_cons, hstep]
    exact foldl_mainStep_error remailers names drawF enc xs e2 k2

theorem foldl_error_of_mem (remailers : Registry) (names : List Str)
    (drawF : Nat → Nat) (enc : Remailer → Bytes → Fallible Bytes)
    (tok : Str)
    (hres : ∀ d, ∃ e, resolveToken remailers names d tok = .error e) :
    ∀ (l : List Str), tok ∈ l → ∀ s : Fallible Bytes × Nat,
      ∃ e2, (l.foldl (mainStep remailers names drawF enc) s).1 = Except.error e2
  | [], hmem => by cases hmem
  | x :: xs, hmem => by
    intro s
    obtain ⟨inp, k⟩ := s
    rcases List.mem_cons.mp hmem with h | h
    · subst h
      obtain ⟨e, he⟩ := hres (drawF k)
      have hstep : ∃ e2 k2,
          mainStep remailers names drawF enc (inp, k) tok = (.error e2, k2) := by
        unfold mainStep
        simp [he]
      obtain ⟨e2, k2, hstep⟩ := hstep
      simp only [List.foldl_cons, hstep]
      exact foldl_mainStep_error remailers names drawF enc xs e2 k2
    · simp only [List.foldl_cons]
      exact foldl_error_of_mem remailers names drawF enc tok hres xs h _

theorem collectOks_all_errors :
    ∀ L : List (Fallible Bytes), (∀ x ∈ L, ∃ e, x = .error e) → collectOks L = []
  | [], _ => rfl
  | .ok b :: rest, h => by
    obtain ⟨e, he⟩ := h (.ok b) (by simp)
    cases he
  | .error e :: rest, h => by
    simpa [collectOks] using
      collectOks_all_errors rest (fun x hx => h x (by simp [hx]))

theorem onionEncrypt_cons (encF : Str → Bytes → Bytes) (e : Str) (rest : List Str)
    (msg : Bytes) :
    onionEncrypt encF (e :: rest) msg
      = cpHeaderMain e ++ encF e (onionEncrypt encF rest msg) := by
  unfold onionEncrypt
  rw [List.reverse_cons, List.foldl_append]
  simp

theorem takeWhile_append_stop (p : Char → Bool) :
    ∀ (xs : Str) (y : Char) (ys : Str), (∀ c ∈ xs, p c = true) → p y = false →
      (xs ++ y :: ys).takeWhile p = xs
  | [], y, ys => fun _ hy => by simp [List.takeWhile_cons, hy]
  | x :: xs, y, ys => fun hall hy => by
    simp only [List.cons_append, List.takeWhile_cons, hall x (by simp), if_true]
    rw [takeWhile_append_stop p xs y ys (fun c hc => hall c (by simp [hc])) hy]

theorem parseLayerHeader_cpHeader (e : Str) (ct : Bytes)
    (hnl : ∀ c ∈ e, c ≠ '\n') :
    parseLayerHeader (cpHeaderMain e ++ ct) = some (e, ct) := by
  have hassoc : cpHeaderMain e ++ ct
      = "\n::\nAnon-To: ".data ++ (e ++ ("\n\n::\nEncrypted: PGP\n\n".data ++ ct)) := by
    simp [cpHeaderMain]
  have htake : (cpHeaderMain e ++ ct).take ("\n::\nAnon-To: ".data).length
      = "\n::\nAnon-To: ".data := by
    rw [hassoc]; exact List.take_left _ _
  have hdrop : (cpHeaderMain e ++ ct).drop ("\n::\nAnon-To: ".data).length
      = e ++ ("\n\n::\nEncrypted: PGP\n\n".data ++ ct) := by
    rw [hassoc]; exact List.drop_left _ _
  have hsplit : "\n\n::\nEncrypted: PGP\n\n".data ++ ct
      = '\n' :: ("\n::\nEncrypted: PGP\n\n".data ++ ct) := rfl
  have htw : (e ++ ("\n\n::\nEncrypted: PGP\n\n".data ++ ct)).takeWhile
      (fun c => c ≠ '\n') = e := by
    rw [hsplit]
    exact takeWhile_append_stop _ e '\n' _ (fun c hc => by simpa using hnl c hc) (by decide)
  have hdrop2 : (e ++ ("\n\n::\nEncrypted: PGP\n\n".data ++ ct)).drop e.length
      = "\n\n::\nEncrypted: PGP\n\n".data ++ ct := List.drop_left _ _
  simp only [parseLayerHeader, htake, hdrop, htw, hdrop2, if_pos rfl,
    List.take_left, List.drop_left]
  simp

theorem peel_onion (encF decF : Str → Bytes → Bytes)
    (hinv : ∀ e m, decF e (encF e m) = m) :
    ∀ emails : List Str, (∀ e ∈ emails, ∀ c ∈ e, c ≠ '\n') →
      ∀ msg, peelLayers decF emails (onionEncrypt encF emails msg) = some msg
  | [], _, msg => rfl
  | e :: rest, hnl, msg => by
    rw [onionEncrypt_cons]
    unfold peelLayers
    rw [parseLayerHeader_cpHeader e _ (hnl e (by simp))]
    simp only [if_pos rfl, hinv]
    exact peel_onion encF decF hinv rest (fun x hx c hc => hnl x (by simp [hx]) c hc) msg

theorem foldl_mainStep_ok (remailers : Registry) (names : List Str)
    (drawF : Nat → Nat) (enc : Remailer → Bytes → Fallible Bytes)
    (res : Str → Remailer) (encF : Str → Bytes → Bytes)
    (henc : ∀ r m, enc r m = .ok (encF r.email_address m)) :
    ∀ l : List Str, (∀ t ∈ l, t ≠ "*".data ∧ regGet remailers t = some (res t)) →
      ∀ (acc : Bytes) (k : Nat),
      l.foldl (mainStep remailers names drawF enc) (.ok acc, k)
        = (.ok (l.foldl (fun a t => cpHeaderMain (res t).email_address
            ++ encF (res t).email_address a) acc), k)
  | [], _, acc, k => rfl
  | tok :: xs, hl, acc, k => by
    obtain ⟨hstar, hlook⟩ := hl tok (by simp)
    have hstep : mainStep remailers names drawF enc (.ok acc, k) tok
        = (.ok (cpHeaderMain (res tok).email_address
            ++ encF (res tok).email_address acc), k) := by
      unfold mainStep
      simp [resolveToken, hstar, hlook, henc]
    simp only [List.foldl_cons, hstep]
    exact foldl_mainStep_ok remailers names drawF enc res encF henc xs
      (fun t ht => hl t (by simp [ht])) _ k

/-! ## Claim theorems -/

/-- Claim C1: for every non-empty resolved chain and every plaintext, the
envelope built by the onion-encryption fold (which processes the resolved
chain from its last element to its first) has its outermost ciphertext
addressed to the first hop, and decrypting it hop-by-hop in forward chain
order yields at each layer a header naming exactly the next relay, with the
innermost layer equal to the original plaintext — PGP encrypt/decrypt
modelled as abstract mutually inverse functions `encF`/`decF`. -/
theorem c1_onion_roundtrip (remailers : Registry) (chain : List Str)
    (res : Str → Remailer) (encF decF : Str → Bytes → Bytes)
    (enc : Remailer → Bytes → Fallible Bytes)
    (shuffle : Nat → List Str → List Str) (draw : Nat → Nat → Nat)
    (message : Bytes) (i : Nat)
    (_hne : chain ≠ [])
    (hres : ∀ t ∈ chain, t ≠ "*".data ∧ regGet remailers t = some (res t))
    (henc : ∀ r m, enc r m = .ok (encF r.email_address m))
    (hinv : ∀ e m, decF e (encF e m) = m)
    (hnl : ∀ t ∈ chain, ∀ c ∈ (res t).email_address, c ≠ '\n') :
    attemptRun remailers chain shuffle draw enc message i
      = .ok (onionEncrypt encF (chain.map fun t => (res t).email_address) message)
  ∧ (∀ (e : Str) (rest : List Str) (m : Bytes),
      onionEncrypt encF (e :: rest) m
        = cpHeaderMain e ++ encF e (onionEncrypt encF rest m))
  ∧ peelLayers decF (chain.map fun t => (res t).email_address)
      (onionEncrypt encF (chain.map fun t => (res t).email_address) message)
    = some message := by
  refine ⟨?_, fun e rest m => onionEncrypt_cons encF e rest m, ?_⟩
  · show (chain.reverse.foldl
        (mainStep remailers (shuffle i (regNames remailers)) (draw i) enc)
        (.ok message, 0)).1 = _
    rw [foldl_mainStep_ok remailers _ (draw i) enc res encF henc chain.reverse
      (fun t ht => hres t (List.mem_reverse.mp ht)) message 0]
    unfold onionEncrypt
    rw [← List.map_reverse, List.foldl_map]
  · exact peel_onion encF decF hinv _
      (fun e he c hc => by
        obtain ⟨t, ht, rfl⟩ := List.mem_map.mp he
        exact hnl t ht c hc) message

/-- Claim C1, witness: a concrete one-hop chain round-trips to the original
plaintext. -/
theorem c1_onion_roundtrip_witness :
    peelLayers (fun _ m => m.drop 1) ["remailer@dizum.com".data]
      (onionEncrypt (fun _ m => '#' :: m) ["remailer@dizum.com".data] "Hi".data)
      = some "Hi".data :=
  (c1_onion_roundtrip regW ["dizum".data] (fun _ => dizumR) (fun _ m => '#' :: m)
    (fun _ m => m.drop 1) encW shufW drawW "Hi".data 0 (by decide)
    (fun t ht => by
      simp only [List.mem_singleton] at ht
      subst ht
      exact ⟨by decide, rfl⟩)
    (fun r m => rfl) (fun e m => rfl)
    (by decide)).2.2

/-- Claim C2, counterexample: on the §8 example envelope, Mailto formatting
does not return `"mailto:a@b.com?body=Hello%20World"` — the body keeps the
inner `::`/`Encrypted: PGP` block (the code drops exactly one character after
the first blank line, not everything up to the body). -/
theorem c2_mailto_counterexample :
    format_mailto exampleEnvelope ≠ some "mailto:a@b.com?body=Hello%20World".data := by
  decide

/-- Claim C2, amended: Mailto formatting takes as recipient everything between
the first `": "` marker and the next blank line, drops a single newline, and
percent-encodes the whole remainder (which retains the inner
`::`/`Encrypted: PGP` block) as the body; on the §8 example envelope it
returns `"mailto:a@b.com?body=%0A%3A%3A%0AEncrypted%3A%20PGP%0A%0AHello%20World"`. -/
theorem c2_mailto_formats_example :
    format_mailto exampleEnvelope
      = some "mailto:a@b.com?body=%0A%3A%3A%0AEncrypted%3A%20PGP%0A%0AHello%20World".data := by
  decide

/-- Claim C3, counterexample: with registry `{dizum}` and chain
`["dizum", "unknown"]`, the attempt fails with the unknown-remailer error
instead of skipping the unknown token — although the shrunken chain
`["dizum"]` alone would have produced an envelope. -/
theorem c3_unknown_token_counterexample :
    attemptRun regW ["dizum".data, "unknown".data] shufW drawW encW "Hi".data 0
      = .error "The remailer named `unknown` is unknown!".data
  ∧ attemptRun regW ["dizum".data] shufW drawW encW "Hi".data 0
      = .ok "\n::\nAnon-To: remailer@dizum.com\n\n::\nEncrypted: PGP\n\n#Hi".data :=
  ⟨rfl, rfl⟩

/-- Claim C3, amended: a literal chain token not found in the relay registry
makes that whole attempt fail with the error naming the token (the token is
not skipped and the chain does not shrink); only the failing attempt is
discarded. -/
theorem c3_unknown_token_fails_attempt (remailers : Registry) (chain : List Str)
    (tok : Str) (shuffle : Nat → List Str → List Str) (draw : Nat → Nat → Nat)
    (enc : Remailer → Bytes → Fallible Bytes) (message : Bytes) (i : Nat)
    (hmem : tok ∈ chain) (hstar : tok ≠ "*".data)
    (hlook : regGet remailers tok = none) :
    ∃ e, attemptRun remailers chain shuffle draw enc message i = .error e := by
  unfold attemptRun
  have hres : ∀ d, ∃ e,
      resolveToken remailers (shuffle i (regNames remailers)) d tok = .error e := by
    intro d
    refine ⟨"The remailer named `".data ++ tok ++ "` is unknown!".data, ?_⟩
    simp [resolveToken, hstar, hlook]
  exact foldl_error_of_mem remailers _ (draw i) enc tok hres chain.reverse
    (List.mem_reverse.mpr hmem) _

/-- Claim C3, witness for the amended statement at a concrete input. -/
theorem c3_unknown_token_witness :
    ∃ e, attemptRun regW ["dizum".data, "unknown".data] shufW drawW encW "Hi".data 0
      = .error e :=
  c3_unknown_token_fails_attempt regW _ "unknown".data shufW drawW encW "Hi".data 0
    (by simp) (by decide) rfl

/-- Claim C4, counterexample: an empty chain specification (whose resolved
relay list is trivially empty after processing all of its tokens) does not
fail — the attempt silently returns the plaintext as a zero-hop envelope. -/
theorem c4_empty_chain_counterexample :
    encrypt_message [] [] 1 "Hi".data shufW drawW encW = .ok ["Hi".data]
  ∧ attemptRun [] [] shufW drawW encW "Hi".data 0 = .ok "Hi".data :=
  ⟨rfl, rfl⟩

/-- Claim C4, amended: for a *non-empty* chain consisting only of wildcard
tokens resolved against an empty relay registry, every attempt fails with an
error and no envelope at all is produced (the envelope list is empty); only
an empty chain specification silently yields the plaintext unencrypted. -/
theorem c4_wildcards_empty_registry_fail (chain : List Str) (redundancy : Int)
    (shuffle : Nat → List Str → List Str) (draw : Nat → Nat → Nat)
    (enc : Remailer → Bytes → Fallible Bytes) (message : Bytes)
    (hne : chain ≠ []) (hall : ∀ t ∈ chain, t = "*".data)
    (hshuf : ∀ i, shuffle i [] = []) :
    (∀ i, ∃ e, attemptRun [] chain shuffle draw enc message i = .error e)
  ∧ encrypt_message [] chain redundancy message shuffle draw enc = .ok [] := by
  have hatt : ∀ i, ∃ e, attemptRun [] chain shuffle draw enc message i = .error e := by
    intro i
    unfold attemptRun
    obtain ⟨tok, htok⟩ : ∃ tok, tok ∈ chain := by
      cases chain with
      | nil => exact absurd rfl hne
      | cons x xs => exact ⟨x, by simp⟩
    have hstar := hall tok htok
    subst hstar
    have hres : ∀ d, ∃ e,
        resolveToken [] (shuffle i (regNames [])) d "*".data = .error e := by
      intro d
      refine ⟨"can't choose randomly a remailer_id".data, ?_⟩
      simp [resolveToken, chooseRemailer, regNames, hshuf i]
    exact foldl_error_of_mem [] _ (draw i) enc "*".data hres chain.reverse
      (List.mem_reverse.mpr htok) _
  refine ⟨hatt, ?_⟩
  unfold encrypt_message
  rw [foldl_push_collectOks (attemptRun [] chain shuffle draw enc message)
    (List.range (asU8 redundancy)) []]
  rw [collectOks_all_errors]
  · rfl
  · intro x hx
    simp only [List.mem_map] at hx
    obtain ⟨i, _, hi⟩ := hx
    obtain ⟨e, he⟩ := hatt i
    exact ⟨e, by rw [← hi, he]⟩

/-- Claim C4, witness for the amended statement at a concrete input. -/
theorem c4_wildcards_witness :
    encrypt_message [] ["*".data] 2 "Hi".data shufW drawW encW = .ok [] :=
  (c4_wildcards_empty_registry_fail ["*".data] 2 shufW drawW encW "Hi".data
    (by decide) (by decide) (fun _ => rfl)).2

/-- Claim C5: applying an Identity record to a present relay replaces only its
`options` field; applying a Stats record to a present relay updates only its
`latency` and `uptime` fields; entries for other names are untouched; and,
consequently, applying one Identity record and one Stats record with the same
name — in either order — yields exactly one relay entry exposing the union of
the fields of both records. -/
theorem c5_registry_merge_frame (pu : Str → Float) (reg : Registry)
    (n e e2 lat up : Str) (o : List Str) (r : Remailer)
    (h : regGet reg n = some r) :
    (regGet (applyRecord pu reg (.identity n e o)) n = some { r with options := o }
      ∧ ∀ m, m ≠ n → regGet (applyRecord pu reg (.identity n e o)) m = regGet reg m)
  ∧ (regGet (applyRecord pu reg (.stats n e2 lat up)) n
        = some { r with latency := parseLatencySeconds lat, uptime := pu up }
      ∧ ∀ m, m ≠ n → regGet (applyRecord pu reg (.stats n e2 lat up)) m = regGet reg m)
  ∧ applyRecord pu (applyRecord pu [] (.identity n e o)) (.stats n e2 lat up)
      = [(n, { name := n, email_address := e, options := o,
               latency := parseLatencySeconds lat, keys := [], uptime := pu up })]
  ∧ applyRecord pu (applyRecord pu [] (.stats n e2 lat up)) (.identity n e o)
      = [(n, { name := n, email_address := e2, options := o,
               latency := parseLatencySeconds lat, keys := [], uptime := pu up })] := by
  refine ⟨⟨?_, ?_⟩, ⟨?_, ?_⟩, ?_, ?_⟩
  · simp only [applyRecord, h]
    simpa [Remailer.set_options] using
      regGet_regModify_self n (fun r => r.set_options o) r reg h
  · intro m hm
    simp only [applyRecord, h]
    exact regGet_regModify_ne n m _ hm reg
  · simp only [applyRecord, h]
    have := regGet_regModify_self n
      (fun r => match r.set_latency_from lat with
        | .ok r2 => r2.set_uptime (pu up)
        | .error _ => r) r reg h
    simpa [Remailer.set_latency_from, Remailer.set_uptime] using this
  · intro m hm
    simp only [applyRecord, h]
    exact regGet_regModify_ne n m _ hm reg
  · simp [applyRecord, regGet, regInsert, regModify, Remailer.default,
      Remailer.set_latency_from, Remailer.set_uptime, Remailer.set_options]
  · simp [applyRecord, regGet, regInsert, regModify, Remailer.default,
      Remailer.set_latency_from, Remailer.set_uptime, Remailer.set_options]

/-- Claim C5, witness at a concrete registry and records. -/
theorem c5_registry_merge_frame_witness :
    regGet (applyRecord (fun _ => (0 : Float)) [("dizum".data, dizumR)]
        (.identity "dizum".data "e@x".data [])) "dizum".data
      = some { dizumR with options := [] } :=
  (c5_registry_merge_frame (fun _ => 0) [("dizum".data, dizumR)] "dizum".data "e@x".data
    "e2".data "1:23:45".data "50.0".data [] dizumR (by simp [regGet])).1.1

/-- Claim C6: at every fold step of the core's onion encryption, the bytes
produced are exactly the fixed header block
`"\n::\nAnon-To: <relay-email>\n<extra-headers joined by newline>\n\n::\nEncrypted: PGP\n\n"`
followed immediately by the raw ciphertext returned by the PGP capability,
for every relay email, extra-header list and accumulated input; and the fold
over `chain ++ [r]` is the step applied to the fold over `chain`. -/
theorem c6_step_header_format (enc : Str → Bytes → Fallible Bytes)
    (headers : List Str) (r : Str) (m ct : Bytes) (chain : List Str) (msg : Bytes)
    (h : enc r m = .ok ct) :
    coreStep enc headers (.ok m) r
      = .ok (("\n::\nAnon-To: ".data ++ r ++ '\n' :: joinNL headers
          ++ "\n\n::\nEncrypted: PGP\n\n".data) ++ ct)
  ∧ CypherpunkCore.encrypt_message enc (chain ++ [r]) headers msg
      = coreStep enc headers (CypherpunkCore.encrypt_message enc chain headers msg) r := by
  constructor
  · simp [coreStep, h, coreHeader]
  · simp [CypherpunkCore.encrypt_message, List.foldl_append]

/-- Claim C6, witness at a concrete step. -/
theorem c6_step_header_format_witness :
    coreStep encS ["X-Y: z".data] (.ok "Hi".data) "a@b.com".data
      = .ok (("\n::\nAnon-To: ".data ++ "a@b.com".data ++ '\n' :: joinNL ["X-Y: z".data]
          ++ "\n\n::\nEncrypted: PGP\n\n".data) ++ "#Hi".data) :=
  (c6_step_header_format encS ["X-Y: z".data] "a@b.com".data "Hi".data "#Hi".data
    [] "Hi".data rfl).1

/-- Claim C7: the latency token `"1:23:45"` parses to `5025` seconds; the
malformed token `"99"` parses to `0`; every string outside the latency
grammar parses to `0`; `set_latency_from` never raises an error; and a stats
record with a malformed latency token still updates the relay's uptime. -/
theorem c7_latency_parsing (s : Str) (h : latencyGrammar s = false) :
    parseLatencySeconds "1:23:45".data = 5025
  ∧ parseLatencySeconds "99".data = 0
  ∧ parseLatencySeconds s = 0
  ∧ (∀ r : Remailer, r.set_latency_from s = .ok { r with latency := 0 })
  ∧ (∀ (pu : Str → Float) (reg : Registry) (n e u : Str) (r : Remailer),
      regGet reg n = some r →
      regGet (applyRecord pu reg (.stats n e s u)) n
        = some { r with latency := 0, uptime := pu u }) := by
  have hz := parseLatency_of_not_grammar s h
  refine ⟨by decide, by decide, hz, ?_, ?_⟩
  · intro r
    simp [Remailer.set_latency_from, hz]
  · intro pu reg n e u r hr
    simp only [applyRecord, hr]
    have := regGet_regModify_self n
      (fun r => match r.set_latency_from s with
        | .ok r2 => r2.set_uptime (pu u)
        | .error _ => r) r reg hr
    simpa [Remailer.set_latency_from, Remailer.set_uptime, hz] using this

/-- Claim C7, witness at the malformed token `"99"`. -/
theorem c7_latency_parsing_witness :
    latencyGrammar "99".data = false ∧ parseLatencySeconds "99".data = 0 :=
  ⟨by decide, (c7_latency_parsing "99".data (by decide)).2.1⟩

/-- Claim C8: running resolution plus encryption performs one independent
attempt per redundancy unit; the call returns exactly the envelopes of the
successful attempts (`R − k` envelopes when `k` of the `R` attempts fail, the
failures being counted by `countErrs`); each attempt's outcome is a function
of its own index only; and once a fold step fails, the rest of that attempt's
fold stays an error, so a failing attempt contributes no partial envelope. -/
theorem c8_redundancy_envelopes (remailers : Registry) (chain : List Str)
    (redundancy : Int) (message : Bytes) (shuffle : Nat → List Str → List Str)
    (draw : Nat → Nat → Nat) (enc : Remailer → Bytes → Fallible Bytes) :
    encrypt_message remailers chain redundancy message shuffle draw enc
      = .ok (collectOks (attemptResults remailers chain redundancy message shuffle draw enc))
  ∧ (collectOks (attemptResults remailers chain redundancy message shuffle draw enc)).length
      + countErrs (attemptResults remailers chain redundancy message shuffle draw enc)
      = asU8 redundancy
  ∧ (∀ i, (attemptResults remailers chain redundancy message shuffle draw enc).get? i
      = if i < asU8 redundancy
        then some (attemptRun remailers chain shuffle draw enc message i)
        else none)
  ∧ (∀ (names : List Str) (drawF : Nat → Nat) (l : List Str) (e : Str) (k : Nat),
      ∃ e2, (l.foldl (mainStep remailers names drawF enc) (.error e, k)).1
          = Except.error e2) := by
  refine ⟨?_, ?_, ?_, fun names drawF l e k => foldl_mainStep_error _ _ _ _ l e k⟩
  · unfold encrypt_message attemptResults
    rw [foldl_push_collectOks (attemptRun remailers chain shuffle draw enc message)
      (List.range (asU8 redundancy)) []]
    simp
  · rw [collectOks_length_add_countErrs]
    simp [attemptResults]
  · intro i
    by_cases h : i < asU8 redundancy
    · simp [attemptResults, h, List.getElem?_map, List.getElem?_range]
    · simp only [attemptResults, h, if_false]
      rw [List.get?_eq_none]
      simpa using Nat.le_of_not_lt h

/-- Claim C9, counterexample: EML formatting (modelled from the spec's §4.5
contract, since no EML formatter exists under `src/`) does not yield the body
`"Hello World"` on the §8 example envelope — the first blank line after the
address precedes the inner `::`/`Encrypted: PGP` block, which therefore stays
in the body. -/
theorem c9_eml_counterexample :
    format_eml exampleEnvelope
      ≠ some "MIME-Version: 1.0\nContent-Type: text/plain; charset=utf-8\nTo: a@b.com\n\nHello World".data := by
  decide

/-- Claim C9, amended: EML formatting extracts the address `a@b.com` and, as
the body, everything after the first blank line following the address —
`"::\nEncrypted: PGP\n\nHello World"` for the §8 example — and returns the
minimal header block, a blank line, and that raw body. -/
theorem c9_eml_formats_example :
    format_eml exampleEnvelope
      = some "MIME-Version: 1.0\nContent-Type: text/plain; charset=utf-8\nTo: a@b.com\n\n::\nEncrypted: PGP\n\nHello World".data := by
  decide

/-- Claim C10: the redundancy count is a signed 8-bit value reinterpreted as
an unsigned byte (`as u8`, i.e. reduction modulo 256): `encrypt_message`
performs exactly `r mod 256` attempts, so `r = 0` yields an empty result list
and `r = -1` performs `255` attempts. -/
theorem c10_redundancy_as_u8 (remailers : Registry) (chain : List Str)
    (message : Bytes) (shuffle : Nat → List Str → List Str)
    (draw : Nat → Nat → Nat) (enc : Remailer → Bytes → Fallible Bytes) :
    (∀ r : Int,
      (attemptResults remailers chain r message shuffle draw enc).length = (r % 256).toNat)
  ∧ encrypt_message remailers chain 0 message shuffle draw enc = .ok []
  ∧ asU8 0 = 0 ∧ asU8 (-1) = 255 ∧ asU8 300 = 44 := by
  refine ⟨fun r => ?_, ?_, by decide, by decide, by decide⟩
  · simp [attemptResults, asU8]
  · simp [encrypt_message, asU8]
